import Mathlib

/-!
# Verification of the we3vision media-upload backend

Shallow embedding of the media upload / listing / deletion flow of the
Express backend (`src/middleware/upload.js`, `src/routes/media.js`,
`src/server.js`) together with proofs of the specified properties.

JavaScript strings are modelled as Lean `String`s; the JS string operations
used by the code (`startsWith`, `endsWith`, `toLowerCase`, `includes`,
template concatenation) are modelled transparently over the character list
`String.data`.  Node's `path.extname` (posix flavour) is embedded faithfully
from its loop-based implementation.  Machine integers do not occur: all
numbers involved (`Date.now()`, `Math.round(Math.random()*1E9)`, byte sizes)
are nonnegative integers far below 2^53, so `Nat` models them exactly.
-/

namespace We3Vision

/-- Model of JS `s.startsWith(p)`: `p.data` is a prefix of `s.data`. -/
def jsStartsWith (s p : String) : Bool :=
  List.isPrefixOf p.data s.data

/-- Model of JS `s.endsWith(p)`: `p.data` is a suffix of `s.data`. -/
def jsEndsWith (s p : String) : Bool :=
  List.isSuffixOf p.data s.data

/-- Model of JS `s.toLowerCase()` on ASCII strings: lower-case each char. -/
def jsToLower (s : String) : String :=
  String.mk (s.data.map Char.toLower)

/-- Model of JS `s.includes(p)`: `p.data` is an infix of `s.data`. -/
def jsIncludes (s p : String) : Bool :=
  decide (p.data <:+: s.data)

/-- Little-endian decimal digit characters of `n`; the first argument is
structural fuel (`n` itself suffices since `n` has at most `n` digits). -/
def natDigitsAux : Nat → Nat → List Char
  | 0, _ => []
  | _, 0 => []
  | fuel + 1, n => Char.ofNat (48 + n % 10) :: natDigitsAux fuel (n / 10)

/-- Model of the JS number-to-string coercion for a nonnegative integer
(as in `Date.now() + '-' + ...`): the decimal digit string. -/
def jsNatToString (n : Nat) : String :=
  if n = 0 then "0" else String.mk ((natDigitsAux n n).reverse)

/-!
## Node `path.extname` (posix)

Faithful embedding of the loop in Node's `lib/path.js` (posix `extname`).
The JS loop walks the string from the end; `-1` sentinels are kept as `Int`
values exactly as in the source.
-/

/-- The mutable locals of Node's `extname` loop. -/
structure ExtState where
  startDot : Int
  startPart : Int
  endIdx : Int
  matchedSlash : Bool
  preDotState : Int
deriving Repr, DecidableEq

/-- One pass of Node `extname`'s `for (let i = path.length - 1; i >= 0; --i)`
loop: the `Nat` argument is the number of indices still to process, so the
call with argument `i + 1` processes character index `i`.  A `break` in the
source is a direct return here. -/
def extnameLoop (s : List Char) : Nat → ExtState → ExtState
  | 0, st => st
  | i + 1, st =>
    let code := s.getD i ' '
    if code = '/' then
      if st.matchedSlash = false then
        { st with startPart := (i : Int) + 1 }
      else
        extnameLoop s i st
    else
      let st1 :=
        if st.endIdx = -1 then
          { st with matchedSlash := false, endIdx := (i : Int) + 1 }
        else st
      let st2 :=
        if code = '.' then
          if st1.startDot = -1 then { st1 with startDot := (i : Int) }
          else if st1.preDotState ≠ 1 then { st1 with preDotState := 1 }
          else st1
        else if st1.startDot ≠ -1 then { st1 with preDotState := -1 }
        else st1
      extnameLoop s i st2

/-- Node posix `path.extname`. -/
def extname (p : String) : String :=
  let s := p.data
  let st := extnameLoop s s.length ⟨-1, 0, -1, true, 0⟩
  if st.startDot = -1 ∨ st.endIdx = -1 ∨ st.preDotState = 0 ∨
      (st.preDotState = 1 ∧ st.startDot = st.endIdx - 1 ∧
        st.startDot = st.startPart + 1) then
    ""
  else
    String.mk (((s.drop st.startDot.toNat).take (st.endIdx - st.startDot).toNat))

/-!
## `src/middleware/upload.js`
-/

/-- `storage.filename` from `src/middleware/upload.js`:
`const uniqueSuffix = Date.now() + '-' + Math.round(Math.random() * 1E9);`
`cb(null, file.fieldname + '-' + uniqueSuffix + path.extname(file.originalname));`
`now` models `Date.now()` and `rand` models `Math.round(Math.random() * 1E9)`. -/
def storageFilename (fieldname originalname : String) (now rand : Nat) : String :=
  let uniqueSuffix := jsNatToString now ++ "-" ++ jsNatToString rand
  fieldname ++ "-" ++ uniqueSuffix ++ extname originalname

/-- Outcome signalled by a multer `fileFilter` callback: `cb(null, true)`
accepts, `cb(new Error(msg), false)` rejects with that error. -/
inductive FilterResult where
  | accept : FilterResult
  | reject (msg : String) : FilterResult
deriving Repr, DecidableEq

/-- The message of the `Error` thrown by the upload filter. -/
def notAnImageMsg : String := "Not an image! Please upload an image."

/-- `fileFilter` from `src/middleware/upload.js`, as a function of the file's
declared `mimetype` (the only field it inspects). -/
def fileFilter (mimetype : String) : FilterResult :=
  if jsStartsWith mimetype "image/" then .accept
  else .reject notAnImageMsg

/-- `limits.fileSize` from the multer configuration: `5 * 1024 * 1024`. -/
def fileSizeLimit : Nat := 5 * 1024 * 1024

/-- The `maxCount` of `upload.array('images', 5)`. -/
def maxFiles : Nat := 5

/-- The field name of `upload.array('images', 5)`. -/
def uploadField : String := "images"

/-- A JS error value as observed by the error-handling middleware:
whether it is a `multer.MulterError`, its `code` (meaningful for multer
errors) and its `message`. -/
structure JsError where
  isMulterError : Bool
  code : String
  message : String
deriving Repr, DecidableEq

/-- `new MulterError(code)` with the message multer attaches to that code. -/
def multerError (code msg : String) : JsError := ⟨true, code, msg⟩

/-- The plain `Error` produced by `fileFilter` on a non-image file. -/
def notAnImageError : JsError := ⟨false, "", notAnImageMsg⟩

/-- An incoming multipart file part as multer presents it to the storage
engine and filter: field name, client-supplied original name, declared
content type, and payload size in bytes. -/
structure IncomingFile where
  fieldname : String
  originalname : String
  mimetype : String
  size : Nat
deriving Repr, DecidableEq

/-- Multer's cleanup on an aborted request (`removeUploadedFiles`): every
file stored so far in this request is unlinked from the uploads directory. -/
def cleanup (disk stored : List String) : List String :=
  stored.foldl List.erase disk

/-- Model of multer's `.array('images', 5)` middleware processing the file
parts of one request sequentially (the uploads directory is the list of
file names it currently holds, in creation order):
* a part whose field has no remaining capacity — a field other than
  `images`, or a sixth `images` part — is rejected by multer's wrapped
  filter with `MulterError('LIMIT_UNEXPECTED_FILE')`;
* otherwise `fileFilter` runs: a non-image mimetype rejects with the
  `Not an image!` error;
* otherwise busboy's `fileSize` limit applies: a part larger than
  5 MiB aborts with `MulterError('LIMIT_FILE_SIZE')`;
* an accepted part is written under its `storage.filename` name, built from
  the per-part `(Date.now(), Math.round(Math.random()*1E9))` pair given by
  `seeds`;
* any rejection aborts the request and removes every file this request had
  stored (multer's remove-uploaded-files-on-error behaviour).
Returns the request outcome (the stored names, or the error) and the final
contents of the uploads directory. -/
def runUploadAux (seeds : Nat → Nat × Nat) :
    List IncomingFile → Nat → List String → List String →
    Except JsError (List String) × List String
  | [], _, disk, stored => (.ok stored, disk)
  | f :: rest, idx, disk, stored =>
    if f.fieldname ≠ uploadField ∨ maxFiles ≤ stored.length then
      (.error (multerError "LIMIT_UNEXPECTED_FILE" "Unexpected field"),
        cleanup disk stored)
    else if fileFilter f.mimetype ≠ .accept then
      (.error notAnImageError, cleanup disk stored)
    else if fileSizeLimit < f.size then
      (.error (multerError "LIMIT_FILE_SIZE" "File too large"),
        cleanup disk stored)
    else
      let name := storageFilename f.fieldname f.originalname
        (seeds idx).1 (seeds idx).2
      runUploadAux seeds rest (idx + 1) (disk ++ [name]) (stored ++ [name])

/-- One multipart upload request through `uploadMultiple`. -/
def runUpload (seeds : Nat → Nat × Nat) (files : List IncomingFile)
    (disk : List String) : Except JsError (List String) × List String :=
  runUploadAux seeds files 0 disk []

/-- The names the namer will produce for a list of parts, the `i`-th part
using `seeds (idx + i)`. -/
def genNamesFrom (seeds : Nat → Nat × Nat) : Nat → List IncomingFile → List String
  | _, [] => []
  | idx, f :: rest =>
    storageFilename f.fieldname f.originalname (seeds idx).1 (seeds idx).2 ::
      genNamesFrom seeds (idx + 1) rest

/-- What `handleUploadError` does with an error: answer the request itself
(`res.status(status).json({status:'error', message})`) or pass it on via
`next(err)`. -/
inductive ErrorHandling where
  | handled (status : Nat) (message : String)
  | next (err : JsError)
deriving Repr, DecidableEq

/-- `handleUploadError` from `src/middleware/upload.js`. -/
def handleUploadError (err : JsError) : ErrorHandling :=
  if err.isMulterError ∧ err.code = "LIMIT_FILE_SIZE" then
    .handled 400 "File too large. Maximum size is 5MB."
  else if err.isMulterError ∧ err.code = "LIMIT_FILE_COUNT" then
    .handled 400 "Too many files. Maximum is 5 files."
  else if err.message = notAnImageMsg then
    .handled 400 err.message
  else
    .next err

/-- The global error middleware of `src/server.js`: CORS errors get 403 with
their message, everything else a generic 500. -/
def serverErrorHandler (err : JsError) : Nat × String :=
  if jsIncludes err.message "CORS" then (403, err.message)
  else (500, "Something went wrong!")

/-!
## `src/routes/media.js`
-/

/-- The regex test `/\.(png|jpe?g|gif|webp|svg)$/i.test(f)` of the list
route: `f` ends, case-insensitively, with one of the six image suffixes. -/
def isImageFilename (f : String) : Bool :=
  let l := jsToLower f
  jsEndsWith l ".png" || jsEndsWith l ".jpg" || jsEndsWith l ".jpeg" ||
    jsEndsWith l ".gif" || jsEndsWith l ".webp" || jsEndsWith l ".svg"

/-- `(process.env.BACKEND_URL || '').replace(/\/api\/?$/, '')`: remove one
trailing `/api` or `/api/`. -/
def stripApiSuffix (u : String) : String :=
  if jsEndsWith u "/api/" then String.mk (u.data.take (u.data.length - 5))
  else if jsEndsWith u "/api" then String.mk (u.data.take (u.data.length - 4))
  else u

/-- One `{filename, url}` entry of the media listing. -/
structure MediaEntry where
  filename : String
  url : String
deriving Repr, DecidableEq

/-- The GET `/` handler of `src/routes/media.js` on a successful directory
read: filter the directory entries by the image-extension test and map each
to `{filename, url: backendUrl + '/uploads/' + filename}`.  `backendURLEnv`
is `process.env.BACKEND_URL || ''`. -/
def listMedia (backendURLEnv : String) (files : List String) : List MediaEntry :=
  let backendUrl := stripApiSuffix backendURLEnv
  (files.filter isImageFilename).map
    (fun filename => ⟨filename, backendUrl ++ "/uploads/" ++ filename⟩)

/-- The POST `/` handler of `src/routes/media.js` after the upload
middleware succeeded: `(req.files || []).map(...)` and a 201 response.
`reqFiles` is `none` when `req.files` is undefined. -/
def postMedia (backendURLEnv : String) (reqFiles : Option (List String)) :
    Nat × List MediaEntry :=
  let backendUrl := stripApiSuffix backendURLEnv
  let files := (reqFiles.getD []).map
    (fun filename => (⟨filename, backendUrl ++ "/uploads/" ++ filename⟩ : MediaEntry))
  (201, files)

/-- One character class member of the delete route's allowlist regex
`/^[A-Za-z0-9_.-]+$/`. -/
def isAllowedChar (c : Char) : Bool :=
  ('A' ≤ c && c ≤ 'Z') || ('a' ≤ c && c ≤ 'z') || ('0' ≤ c && c ≤ '9') ||
    c = '_' || c = '.' || c = '-'

/-- The regex test `/^[A-Za-z0-9_.-]+$/.test(filename)`: at least one
character, all from the class. -/
def validFilename (filename : String) : Bool :=
  !filename.data.isEmpty && filename.data.all isAllowedChar

/-- Response of the DELETE `/:filename` handler. -/
inductive DeleteResult where
  | badRequest
  | deleted
  | notFound
  | serverError
deriving Repr, DecidableEq

/-- The DELETE `/:filename` handler of `src/routes/media.js`.  The uploads
directory is modelled as the list of regular-file names it holds.
`fs.promises.unlink(path.join(UPLOADS_DIR, filename))` is modelled by its
Linux semantics for a validated name (which contains no `/`): `"."` and
`".."` resolve to the uploads directory itself and its parent — existing
directories, so `unlink` fails with `EISDIR` (not `ENOENT`), which the
handler's `catch` turns into the 500 branch; any other name addresses a
regular file in the directory, removed if present, `ENOENT` (the 404
branch) if absent. -/
def deleteMedia (dir : List String) (filename : String) :
    DeleteResult × List String :=
  if validFilename filename = false then (.badRequest, dir)
  else if filename = "." ∨ filename = ".." then (.serverError, dir)
  else if filename ∈ dir then (.deleted, dir.erase filename)
  else (.notFound, dir)

/-- One multipart upload request: its file parts and the
`(Date.now(), Math.round(Math.random()*1E9))` pair the namer observes for
each accepted part. -/
structure UploadRequest where
  files : List IncomingFile
  seeds : Nat → Nat × Nat

/-- A sequence of upload requests processed one after the other against the
uploads directory; stops at the first failed request.  On success, returns
the concatenation of the filenames the requests answered with, and the
final directory contents. -/
def runRequests : List UploadRequest → List String →
    Except JsError (List String × List String)
  | [], disk => .ok ([], disk)
  | r :: rest, disk =>
    match runUpload r.seeds r.files disk with
    | (.ok stored, diskAfter) =>
      match runRequests rest diskAfter with
      | .ok (names, finalDisk) => .ok (stored ++ names, finalDisk)
      | .error e => .error e
    | (.error e, _) => .error e

/-- All names the namer produces across a sequence of requests. -/
def allGenNames (reqs : List UploadRequest) : List String :=
  (reqs.map (fun r => genNamesFrom r.seeds 0 r.files)).flatten

/-- A concrete two-request upload scenario used to instantiate the
round-trip theorem. -/
def witnessReqs : List UploadRequest :=
  [⟨[⟨"images", "a.PNG", "image/png", 100⟩], fun i => (i + 1, 7)⟩,
   ⟨[⟨"images", "b.jpg", "image/jpeg", 5⟩], fun i => (i + 3, 9)⟩]

/-- A name carries a path-traversal hazard when it contains the directory
separator `/` or the parent-directory sequence `..`. -/
def hasTraversal (name : String) : Bool :=
  decide ('/' ∈ name.data) || decide (['.', '.'] <:+: name.data)

/-- The image-extension allowlist of the list route, lower-cased. -/
def allowedExtensions : List String :=
  [".png", ".jpg", ".jpeg", ".gif", ".webp", ".svg"]

/-!
## Safety of the extension slice

`extname` returns either `""` or the slice `[startDot, endIdx)` of the
input, which begins with the last `'.'` of the trimmed final path component
and continues with characters that are neither `'.'` nor `'/'`.  The loop
invariant below captures this.
-/

/-- If the loop found a dot, the slice `[startDot, endIdx)` starts with a
dot and its remaining characters are neither dots nor slashes. -/
def SliceSafe (s : List Char) (st : ExtState) : Prop :=
  st.startDot ≠ -1 →
    ∃ d e : Nat, st.startDot = (d : Int) ∧ st.endIdx = (e : Int) ∧
      d < e ∧ e ≤ s.length ∧ s.getD d ' ' = '.' ∧
      ∀ j : Nat, d < j → j < e → s.getD j ' ' ≠ '.' ∧ s.getD j ' ' ≠ '/'

/-- Invariant of `extnameLoop` when `n` indices are left to process. -/
def LoopInv (s : List Char) (n : Nat) (st : ExtState) : Prop :=
  n ≤ s.length ∧
  (st.matchedSlash = true ↔ st.endIdx = -1) ∧
  (st.startDot ≠ -1 → st.endIdx ≠ -1) ∧
  (st.endIdx ≠ -1 → ∃ e : Nat, st.endIdx = (e : Int) ∧ n ≤ e ∧
    e ≤ s.length ∧
    (st.startDot = -1 → ∀ j : Nat, n ≤ j → j < e →
      s.getD j ' ' ≠ '.' ∧ s.getD j ' ' ≠ '/')) ∧
  SliceSafe s st

lemma extnameLoop_safe (s : List Char) :
    ∀ (n : Nat) (st : ExtState), LoopInv s n st →
      SliceSafe s (extnameLoop s n st)
  | 0, st, h => h.2.2.2.2
  | n + 1, st, h => by
    obtain ⟨hlen, hms, hsd_ei, hei, hslice⟩ := h
    by_cases hslash : s.getD n ' ' = '/'
    · by_cases hm : st.matchedSlash = false
      · have hstep : extnameLoop s (n + 1) st =
            { st with startPart := (n : Int) + 1 } := by
          rw [extnameLoop, if_pos hslash, if_pos hm]
        rw [hstep]
        intro hne
        exact hslice hne
      · have hmt : st.matchedSlash = true := by
          cases hx : st.matchedSlash
          · exact absurd hx hm
          · rfl
        have hstep : extnameLoop s (n + 1) st = extnameLoop s n st := by
          rw [extnameLoop, if_pos hslash, if_neg (by simp [hmt])]
        rw [hstep]
        have he1 : st.endIdx = -1 := hms.mp hmt
        have hd1 : st.startDot = -1 := by
          by_contra hc
          exact (hsd_ei hc) he1
        refine extnameLoop_safe s n st ⟨by omega, hms, hsd_ei, ?_, ?_⟩
        · intro hne
          exact absurd he1 hne
        · intro hne
          exact absurd hd1 hne
    · by_cases he : st.endIdx = -1
      -- first non-slash character from the end: `endIdx` is set to `n + 1`
      · have hd1 : st.startDot = -1 := by
          by_contra hc
          exact (hsd_ei hc) he
        by_cases hdot : s.getD n ' ' = '.'
        · -- a dot at the very end of the trimmed component
          have hstep : extnameLoop s (n + 1) st = extnameLoop s n
              { st with matchedSlash := false, endIdx := (n : Int) + 1, startDot := (n : Int) } := by
            rw [extnameLoop]
            simp only [if_neg hslash, if_pos he, if_pos hdot, hd1]
            simp
          rw [hstep]
          refine extnameLoop_safe s n _
            ⟨by omega, ⟨fun hx => by simp at hx, fun hx => absurd hx (show ¬((n : Int) + 1 = -1) by omega)⟩, ?_, ?_, ?_⟩
          · intro _
            show ((n : Int) + 1) ≠ -1
            omega
          · intro _
            refine ⟨n + 1, by simp, by omega, by omega, ?_⟩
            intro hcon
            exact absurd hcon (show ¬((n : Int) = -1) by omega)
          · intro _
            refine ⟨n, n + 1, rfl, by simp, by omega, by omega, hdot, ?_⟩
            intro j hj1 hj2
            omega
        · -- an ordinary character at the end of the trimmed component
          have hstep : extnameLoop s (n + 1) st = extnameLoop s n
              { st with matchedSlash := false, endIdx := (n : Int) + 1 } := by
            rw [extnameLoop]
            simp only [if_neg hslash, if_pos he, if_neg hdot, hd1]
            simp
          rw [hstep]
          refine extnameLoop_safe s n _
            ⟨by omega, ⟨fun hx => by simp at hx, fun hx => absurd hx (show ¬((n : Int) + 1 = -1) by omega)⟩, ?_, ?_, ?_⟩
          · intro _
            show ((n : Int) + 1) ≠ -1
            omega
          · intro _
            refine ⟨n + 1, by simp, by omega, by omega, ?_⟩
            intro _ j hj1 hj2
            have hj : j = n := by omega
            subst hj
            exact ⟨hdot, hslash⟩
          · intro hcon
            exact absurd hd1 (by simpa using hcon)
      -- `endIdx` already set: `st1 = st`
      · obtain ⟨e, hee, hne, helen, hsafe⟩ := hei he
        by_cases hsd : st.startDot = -1
        · by_cases hdot : s.getD n ' ' = '.'
          · -- the last dot of the component is found at index `n`
            have hstep : extnameLoop s (n + 1) st = extnameLoop s n
                { st with startDot := (n : Int) } := by
              rw [extnameLoop]
              simp only [if_neg hslash, if_neg he, if_pos hdot, hsd]
              simp
            rw [hstep]
            have hmf : st.matchedSlash = false := by
              cases hx : st.matchedSlash
              · rfl
              · exact absurd (hms.mp hx) he
            refine extnameLoop_safe s n _
              ⟨by omega, ⟨fun hx => absurd (hms.mp hx) he, fun hx => absurd hx he⟩, ?_, ?_, ?_⟩
            · intro _
              exact he
            · intro _
              refine ⟨e, hee, by omega, helen, ?_⟩
              intro hcon
              exact absurd hcon (show ¬((n : Int) = -1) by omega)
            · intro _
              refine ⟨n, e, rfl, hee, by omega, helen, hdot, ?_⟩
              intro j hj1 hj2
              exact hsafe hsd j (by omega) hj2
          · -- ordinary character before the dot position
            have hstep : extnameLoop s (n + 1) st = extnameLoop s n st := by
              rw [extnameLoop]
              simp only [if_neg hslash, if_neg he, if_neg hdot, hsd]
              simp
            rw [hstep]
            refine extnameLoop_safe s n st ⟨by omega, hms, hsd_ei, ?_, hslice⟩
            intro _
            refine ⟨e, hee, by omega, helen, ?_⟩
            intro _ j hj1 hj2
            rcases Nat.eq_or_lt_of_le hj1 with hj | hj
            · subst hj
              exact ⟨hdot, hslash⟩
            · exact hsafe hsd j (by omega) hj2
        · -- a dot was already found: only `preDotState` can change
          have hpds : ∀ pd : Int,
              LoopInv s n { st with preDotState := pd } := by
            intro pd
            refine ⟨by omega, hms, hsd_ei, ?_, ?_⟩
            · intro _
              exact ⟨e, hee, by omega, helen, fun hcon => absurd hcon hsd⟩
            · intro _
              obtain ⟨d, e', h1, h2, h3, h4, h5, h6⟩ := hslice hsd
              exact ⟨d, e', h1, h2, h3, h4, h5, h6⟩
          by_cases hdot : s.getD n ' ' = '.'
          · by_cases hpd : st.preDotState ≠ 1
            · have hstep : extnameLoop s (n + 1) st = extnameLoop s n
                  { st with preDotState := 1 } := by
                rw [extnameLoop]
                simp only [if_neg hslash, if_neg he, if_pos hdot,
                  if_neg hsd, if_pos hpd]
              rw [hstep]
              exact extnameLoop_safe s n _ (hpds 1)
            · have hstep : extnameLoop s (n + 1) st = extnameLoop s n st := by
                rw [extnameLoop]
                simp only [if_neg hslash, if_neg he, if_pos hdot,
                  if_neg hsd, if_neg hpd]
              rw [hstep]
              refine extnameLoop_safe s n st
                ⟨by omega, hms, hsd_ei, ?_, hslice⟩
              intro _
              exact ⟨e, hee, by omega, helen, fun hcon => absurd hcon hsd⟩
          · have hstep : extnameLoop s (n + 1) st = extnameLoop s n
                { st with preDotState := -1 } := by
              rw [extnameLoop]
              simp only [if_neg hslash, if_neg he, if_neg hdot,
                if_pos hsd]
            rw [hstep]
            exact extnameLoop_safe s n _ (hpds (-1))
/-- `extname` returns either the empty string or a string that begins with
a dot and continues with characters that are neither dots nor slashes. -/
lemma extname_safe (p : String) :
    extname p = "" ∨
      ∃ t : List Char, (extname p).data = '.' :: t ∧
        ∀ c ∈ t, c ≠ '.' ∧ c ≠ '/' := by
  have hsafe : SliceSafe p.data
      (extnameLoop p.data p.data.length ⟨-1, 0, -1, true, 0⟩) :=
    extnameLoop_safe p.data p.data.length ⟨-1, 0, -1, true, 0⟩
      ⟨le_refl _, by simp, fun h => h, fun h => absurd rfl h,
        fun h => absurd rfl h⟩
  simp only [extname]
  split
  · exact Or.inl rfl
  · rename_i hcond
    right
    push_neg at hcond
    obtain ⟨hsd, _, _, _⟩ := hcond
    obtain ⟨d, e, hd, he, hde, helen, hdot, hint⟩ := hsafe hsd
    rw [hd, he]
    have h1 : ((d : Int)).toNat = d := by omega
    have h2 : (((e : Int)) - (d : Int)).toNat = e - d := by omega
    rw [h1, h2]
    have hdl : d < p.data.length := lt_of_lt_of_le hde helen
    rw [List.drop_eq_getElem_cons hdl]
    have hgd : p.data[d] = '.' := by
      rw [← List.getD_eq_getElem p.data ' ' hdl]
      exact hdot
    rw [hgd]
    have htake : e - d = (e - d - 1) + 1 := by omega
    rw [htake, List.take_succ_cons]
    refine ⟨List.take (e - d - 1) (List.drop (d + 1) p.data), rfl, ?_⟩
    intro c hcmem
    obtain ⟨k, hk, hck⟩ := List.mem_iff_getElem.mp hcmem
    have hk1 : k < e - d - 1 := by
      have := hk
      rw [List.length_take] at this
      omega
    simp only [List.getElem_take, List.getElem_drop] at hck
    subst hck
    have hjlen : d + 1 + k < p.data.length := by omega
    have hres := hint (d + 1 + k) (by omega) (by omega)
    rw [List.getD_eq_getElem _ _ hjlen] at hres
    exact hres

/-!
## Digit strings
-/

lemma natDigitsAux_digits :
    ∀ (fuel n : Nat), ∀ c ∈ natDigitsAux fuel n, '0' ≤ c ∧ c ≤ '9'
  | 0, _ => by simp [natDigitsAux]
  | fuel + 1, 0 => by simp [natDigitsAux]
  | fuel + 1, n + 1 => by
    intro c hc
    simp only [natDigitsAux, List.mem_cons] at hc
    rcases hc with h | h
    · subst h
      have h10 : (n + 1) % 10 < 10 := Nat.mod_lt _ (by norm_num)
      set r := (n + 1) % 10 with hr
      interval_cases r <;> decide
    · exact natDigitsAux_digits fuel ((n + 1) / 10) c h

lemma jsNatToString_digits (n : Nat) :
    ∀ c ∈ (jsNatToString n).data, '0' ≤ c ∧ c ≤ '9' := by
  intro c hc
  by_cases h : n = 0
  · subst h
    simp only [jsNatToString, if_pos rfl] at hc
    have : c = '0' := by simpa using hc
    subst this
    exact ⟨le_refl _, by decide⟩
  · rw [jsNatToString, if_neg h] at hc
    exact natDigitsAux_digits n n c (List.mem_reverse.mp hc)

lemma digit_ne_dot_slash {c : Char} (h : '0' ≤ c ∧ c ≤ '9') :
    c ≠ '.' ∧ c ≠ '/' := by
  constructor
  · intro hc
    subst hc
    exact absurd h.1 (by decide)
  · intro hc
    subst hc
    exact absurd h.1 (by decide)

/-!
## Theorems
-/

/-- **C5.** Whatever the client supplies as original filename — including
names containing `..`, `/` or other separators — and whatever timestamp and
random value occur, the name the namer produces for the upload field
contains no path separator `/` and no traversal sequence `..`. -/
theorem storageFilename_no_traversal (originalname : String) (now rand : Nat) :
    hasTraversal (storageFilename uploadField originalname now rand) = false := by
  have hsplit : (storageFilename uploadField originalname now rand).data =
      "images".data ++ "-".data ++ (jsNatToString now).data ++ "-".data ++
        (jsNatToString rand).data ++ (extname originalname).data := by
    simp [storageFilename, uploadField, String.data_append, List.append_assoc]
  simp only [hasTraversal, Bool.or_eq_false_iff, decide_eq_false_iff_not]
  constructor
  · -- no '/' anywhere in the generated name
    intro hmem
    rw [hsplit] at hmem
    simp only [List.mem_append] at hmem
    rcases hmem with ((((h | h) | h) | h) | h) | h
    · exact absurd h (by decide)
    · exact absurd h (by decide)
    · exact absurd (jsNatToString_digits now '/' h) (by decide)
    · exact absurd h (by decide)
    · exact absurd (jsNatToString_digits rand '/' h) (by decide)
    · rcases extname_safe originalname with hx | ⟨t, ht, hsafe⟩
      · rw [hx] at h
        simp at h
      · rw [ht] at h
        rcases List.mem_cons.mp h with h | h
        · exact absurd h (by decide)
        · exact (hsafe '/' h).2 rfl
  · -- at most one dot in the name, so no `..` substring
    intro hinf
    have hcount :
        List.count '.' (storageFilename uploadField originalname now rand).data
          ≤ 1 := by
      rw [hsplit]
      simp only [List.count_append]
      have h1 : List.count '.' ['i', 'm', 'a', 'g', 'e', 's'] = 0 := by decide
      have h2 : List.count '.' ['-'] = 0 := by decide
      have h3 : List.count '.' (jsNatToString now).data = 0 :=
        List.count_eq_zero.mpr
          (fun hm => (digit_ne_dot_slash (jsNatToString_digits now '.' hm)).1 rfl)
      have h4 : List.count '.' (jsNatToString rand).data = 0 :=
        List.count_eq_zero.mpr
          (fun hm => (digit_ne_dot_slash (jsNatToString_digits rand '.' hm)).1 rfl)
      have h5 : List.count '.' (extname originalname).data ≤ 1 := by
        rcases extname_safe originalname with hx | ⟨t, ht, hsafe⟩
        · rw [hx]
          decide
        · rw [ht, List.count_cons]
          have ht0 : List.count '.' t = 0 :=
            List.count_eq_zero.mpr (fun hm => (hsafe '.' hm).1 rfl)
          simp [ht0]
      omega
    have hle := List.Sublist.count_le (List.IsInfix.sublist hinf) '.'
    have h2 : List.count '.' ['.', '.'] = 2 := by decide
    omega

/-- **C3.** The upload filter accepts an incoming file iff its declared
content type begins with the prefix `image/`; every other file is rejected
with the `Not an image!` error, and the filter merely signals this outcome
(`FilterResult` is its entire effect). -/
theorem fileFilter_accepts_only_images (mimetype : String) :
    (fileFilter mimetype = .accept ↔ "image/".data <+: mimetype.data) ∧
    (fileFilter mimetype ≠ .accept →
      fileFilter mimetype = .reject notAnImageMsg) := by
  have key : jsStartsWith mimetype "image/" = true ↔
      ("image/".data <+: mimetype.data) := List.isPrefixOf_iff_prefix
  by_cases h : ("image/".data <+: mimetype.data)
  · have hb : jsStartsWith mimetype "image/" = true := key.mpr h
    simp [fileFilter, hb, h]
  · have hb : jsStartsWith mimetype "image/" = false := by
      rw [Bool.eq_false_iff]
      intro hc
      exact h (key.mp hc)
    simp [fileFilter, hb, h]

/-- Witness for C3 at concrete content types. -/
theorem fileFilter_accepts_only_images_witness :
    fileFilter "image/png" = .accept ∧
    fileFilter "text/plain" = .reject notAnImageMsg :=
  ⟨(fileFilter_accepts_only_images "image/png").1.mpr (by decide),
   (fileFilter_accepts_only_images "text/plain").2 (by decide)⟩

/-- **C10.** An authorized upload request carrying zero file parts (whether
`req.files` is undefined or the empty array) succeeds with status 201 and an
empty data array. -/
theorem postMedia_zero_files_succeeds (env : String) :
    postMedia env none = (201, []) ∧ postMedia env (some []) = (201, []) :=
  ⟨rfl, rfl⟩

/-- **C8.** An entry belongs to the media listing exactly when its filename
is a directory entry matching the image-extension test and its url is the
configured base URL with a trailing `/api` (or `/api/`) stripped, followed
by `/uploads/` and the filename. -/
theorem listMedia_mem_iff (env : String) (files : List String)
    (e : MediaEntry) :
    e ∈ listMedia env files ↔
      e.filename ∈ files ∧ isImageFilename e.filename = true ∧
        e.url = stripApiSuffix env ++ "/uploads/" ++ e.filename := by
  unfold listMedia
  simp only [List.mem_map, List.mem_filter]
  constructor
  · rintro ⟨f, ⟨hf, himg⟩, rfl⟩
    exact ⟨hf, himg, rfl⟩
  · rintro ⟨hf, himg, hurl⟩
    refine ⟨e.filename, ⟨hf, himg⟩, ?_⟩
    cases e
    simp only at hurl ⊢
    rw [hurl]

/-- Witness for C8 at a concrete directory and base URL. -/
theorem listMedia_mem_iff_witness :
    (⟨"a.png", "http://h/uploads/a.png"⟩ : MediaEntry) ∈
      listMedia "http://h/api" ["a.png", "b.txt"] :=
  (listMedia_mem_iff "http://h/api" ["a.png", "b.txt"]
    ⟨"a.png", "http://h/uploads/a.png"⟩).mpr (by decide)

/-- **C7.** `handleUploadError` translates the three validation failures to
HTTP 400 with the corresponding structured message — `LIMIT_FILE_SIZE` to
the max-5MB message, `LIMIT_FILE_COUNT` to the max-5-files message, and the
`Not an image!` filter error to its own message — while every other error
is passed to `next` and answered by the server's generic error middleware
with a 500. -/
theorem handleUploadError_translates (err : JsError) :
    (err.isMulterError = true → err.code = "LIMIT_FILE_SIZE" →
      handleUploadError err =
        .handled 400 "File too large. Maximum size is 5MB.") ∧
    (err.isMulterError = true → err.code = "LIMIT_FILE_COUNT" →
      handleUploadError err =
        .handled 400 "Too many files. Maximum is 5 files.") ∧
    (err.message = notAnImageMsg →
      (err.isMulterError = true →
        err.code ≠ "LIMIT_FILE_SIZE" ∧ err.code ≠ "LIMIT_FILE_COUNT") →
      handleUploadError err = .handled 400 notAnImageMsg) ∧
    ((err.isMulterError = true →
        err.code ≠ "LIMIT_FILE_SIZE" ∧ err.code ≠ "LIMIT_FILE_COUNT") →
      err.message ≠ notAnImageMsg →
      handleUploadError err = .next err ∧
        (jsIncludes err.message "CORS" = false →
          serverErrorHandler err = (500, "Something went wrong!"))) := by
  have hne : ¬(("LIMIT_FILE_COUNT" : String) = "LIMIT_FILE_SIZE") := by decide
  refine ⟨?_, ?_, ?_, ?_⟩
  · intro hm hc
    simp [handleUploadError, hm, hc]
  · intro hm hc
    simp [handleUploadError, hm, hc, hne]
  · intro hmsg hcodes
    by_cases hm : err.isMulterError = true
    · rcases hcodes hm with ⟨h1, h2⟩
      simp [handleUploadError, hm, h1, h2, hmsg]
    · have hm' : err.isMulterError = false := by
        cases h : err.isMulterError
        · rfl
        · exact absurd h hm
      simp [handleUploadError, hm', hmsg]
  · intro hcodes hmsg
    refine ⟨?_, ?_⟩
    · by_cases hm : err.isMulterError = true
      · rcases hcodes hm with ⟨h1, h2⟩
        simp [handleUploadError, hm, h1, h2, hmsg]
      · have hm' : err.isMulterError = false := by
          cases h : err.isMulterError
          · rfl
          · exact absurd h hm
        simp [handleUploadError, hm', hmsg]
    · intro hcors
      simp [serverErrorHandler, hcors]

/-- Witness for C7 at the concrete errors the pipeline produces. -/
theorem handleUploadError_translates_witness :
    handleUploadError (multerError "LIMIT_FILE_SIZE" "File too large") =
      .handled 400 "File too large. Maximum size is 5MB." ∧
    handleUploadError (multerError "LIMIT_FILE_COUNT" "Too many files") =
      .handled 400 "Too many files. Maximum is 5 files." ∧
    handleUploadError notAnImageError = .handled 400 notAnImageMsg ∧
    handleUploadError (multerError "LIMIT_UNEXPECTED_FILE" "Unexpected field") =
      .next (multerError "LIMIT_UNEXPECTED_FILE" "Unexpected field") ∧
    serverErrorHandler (multerError "LIMIT_UNEXPECTED_FILE" "Unexpected field") =
      (500, "Something went wrong!") :=
  ⟨(handleUploadError_translates _).1 rfl rfl,
   (handleUploadError_translates _).2.1 rfl rfl,
   (handleUploadError_translates _).2.2.1 rfl (by decide),
   ((handleUploadError_translates
      (multerError "LIMIT_UNEXPECTED_FILE" "Unexpected field")).2.2.2
      (by decide) (by decide)).1,
   ((handleUploadError_translates
      (multerError "LIMIT_UNEXPECTED_FILE" "Unexpected field")).2.2.2
      (by decide) (by decide)).2 (by decide)⟩

/-- **C2, counterexample.** The filename `".."` consists only of allowlisted
characters, so it passes validation and reaches the unlink call (the handler
proceeds past the 400 branch), although it contains a path-traversal
sequence: the claim that no filename containing a traversal sequence ever
reaches unlink is false. -/
theorem delete_dotdot_passes_validation :
    validFilename ".." = true ∧
    hasTraversal ".." = true ∧
    deleteMedia ["a.png"] ".." = (.serverError, ["a.png"]) := by decide

/-- **C2, amended.** A delete request whose filename contains a character
outside `[A-Za-z0-9_.-]` — in particular any filename containing the path
separator `/` — is answered with the 400 bad-request branch before any
filesystem access, the directory left untouched.  (Names built only from
allowlisted characters, such as `".."`, do pass validation.) -/
theorem delete_rejects_disallowed_chars (dir : List String) (filename : String)
    (h : (∃ c ∈ filename.data, isAllowedChar c = false) ∨
      '/' ∈ filename.data) :
    deleteMedia dir filename = (.badRequest, dir) := by
  have hex : ∃ c ∈ filename.data, isAllowedChar c = false := by
    rcases h with h | h
    · exact h
    · exact ⟨'/', h, by decide⟩
  have hvf : validFilename filename = false := by
    rcases hex with ⟨c, hc, hcf⟩
    have hall : filename.data.all isAllowedChar = false := by
      rw [List.all_eq_false]
      exact ⟨c, hc, by simp [hcf]⟩
    simp [validFilename, hall]
  simp [deleteMedia, hvf]

/-- Witness for amended C2: the spec's own example `../etc/passwd`. -/
theorem delete_rejects_disallowed_chars_witness :
    deleteMedia ["a.png"] "../etc/passwd" = (.badRequest, ["a.png"]) :=
  delete_rejects_disallowed_chars ["a.png"] "../etc/passwd"
    (Or.inr (by decide))

/-- **C9.** A delete request whose filename passes validation and names
nothing that exists in the uploads directory (no stored file bears the name,
and it is not one of the always-present directory entries `.` and `..`)
fails with the 404 not-found branch — distinct from the 500 branch — and
leaves the directory unchanged. -/
theorem delete_missing_file_not_found (dir : List String) (filename : String)
    (hv : validFilename filename = true) (hmem : filename ∉ dir)
    (hdot : filename ≠ ".") (hdotdot : filename ≠ "..") :
    deleteMedia dir filename = (.notFound, dir) ∧
      DeleteResult.notFound ≠ DeleteResult.serverError := by
  refine ⟨?_, by decide⟩
  simp [deleteMedia, hv, hdot, hdotdot, hmem]

/-- Witness for C9 at a concrete directory and name. -/
theorem delete_missing_file_not_found_witness :
    deleteMedia ["images-1-7.png"] "ghost.png" =
      (.notFound, ["images-1-7.png"]) :=
  (delete_missing_file_not_found ["images-1-7.png"] "ghost.png"
    (by decide) (by decide) (by decide) (by decide)).1

/-- **C6, counterexample.** The namer does not lower-case the extension: for
original name `photo.JPG` the produced filename keeps the upper-case
`.JPG`, differing from the name the claim prescribes (which would end in
the lower-cased `.jpg`). -/
theorem namer_keeps_extension_case :
    storageFilename "images" "photo.JPG" 1 2 = "images-1-2.JPG" ∧
    jsToLower (extname "photo.JPG") = ".jpg" ∧
    storageFilename "images" "photo.JPG" 1 2 ≠
      "images" ++ "-" ++ jsNatToString 1 ++ "-" ++ jsNatToString 2 ++
        jsToLower (extname "photo.JPG") := by decide

/-- **C6, amended.** The generated filename is the concatenation of the
field identifier, the timestamp, the random integer (hyphen-separated) and
the extension extracted from the original name *as is* — its case is
preserved, not lower-cased — so the name always ends in exactly that
extracted extension. -/
theorem storageFilename_structure (fieldname originalname : String)
    (now rand : Nat) :
    storageFilename fieldname originalname now rand =
      fieldname ++ "-" ++ jsNatToString now ++ "-" ++ jsNatToString rand ++
        extname originalname ∧
    jsEndsWith (storageFilename fieldname originalname now rand)
      (extname originalname) = true := by
  refine ⟨by simp [storageFilename, String.append_assoc], ?_⟩
  rw [jsEndsWith, List.isSuffixOf_iff_suffix]
  show (extname originalname).data <:+
    (fieldname ++ "-" ++ (jsNatToString now ++ "-" ++ jsNatToString rand) ++
      extname originalname).data
  rw [String.data_append]
  exact List.suffix_append _ _

/-!
## The upload pipeline: abort-with-cleanup and success runs
-/

lemma fileFilter_accept_startsWith {m : String}
    (h : fileFilter m = .accept) : jsStartsWith m "image/" = true := by
  by_contra hb
  rw [fileFilter, if_neg hb] at h
  exact FilterResult.noConfusion h

lemma cleanup_restores (disk0 : List String) :
    ∀ stored : List String, stored.Nodup → (∀ nm ∈ stored, nm ∉ disk0) →
      cleanup (disk0 ++ stored) stored = disk0
  | [], _, _ => by simp [cleanup]
  | nm :: rest, hnd, hdisj => by
    have h1 : (disk0 ++ nm :: rest).erase nm = disk0 ++ rest := by
      rw [List.erase_append_right _ (hdisj nm (List.mem_cons_self nm rest))]
      simp
    show cleanup ((disk0 ++ nm :: rest).erase nm) rest = disk0
    rw [h1]
    exact cleanup_restores disk0 rest (List.Nodup.of_cons hnd)
      (fun x hx => hdisj x (List.mem_cons_of_mem nm hx))

lemma runUploadAux_error (seeds : Nat → Nat × Nat) (disk0 : List String) :
    ∀ (files : List IncomingFile) (idx : Nat) (stored : List String),
      (∀ f ∈ files, f.fieldname = uploadField) →
      stored.Nodup →
      (∀ nm ∈ stored, nm ∉ disk0) →
      (∀ nm ∈ genNamesFrom seeds idx files, nm ∉ disk0 ∧ nm ∉ stored) →
      (genNamesFrom seeds idx files).Nodup →
      stored.length ≤ maxFiles →
      (maxFiles < files.length + stored.length ∨
        ∃ f ∈ files, fileSizeLimit < f.size ∨
          jsStartsWith f.mimetype "image/" = false) →
      ∃ e, runUploadAux seeds files idx (disk0 ++ stored) stored =
        (.error e, disk0)
  | [], idx, stored, _, _, _, _, _, hlen, hbad => by
    rcases hbad with h | ⟨f, hf, _⟩
    · simp at h
      omega
    · simp at hf
  | f :: rest, idx, stored, hfield, hnd, hdisj, hfresh, hgnd, hlen, hbad => by
    simp only [runUploadAux]
    by_cases h1 : f.fieldname ≠ uploadField ∨ maxFiles ≤ stored.length
    · rw [if_pos h1, cleanup_restores disk0 stored hnd hdisj]
      exact ⟨_, rfl⟩
    · rw [if_neg h1]
      by_cases h2 : fileFilter f.mimetype ≠ FilterResult.accept
      · rw [if_pos h2, cleanup_restores disk0 stored hnd hdisj]
        exact ⟨_, rfl⟩
      · rw [if_neg h2]
        by_cases h3 : fileSizeLimit < f.size
        · rw [if_pos h3, cleanup_restores disk0 stored hnd hdisj]
          exact ⟨_, rfl⟩
        · rw [if_neg h3]
          push_neg at h1
          have hacc : fileFilter f.mimetype = .accept := not_not.mp h2
          have hjs : jsStartsWith f.mimetype "image/" = true :=
            fileFilter_accept_startsWith hacc
          set name := storageFilename f.fieldname f.originalname
            (seeds idx).1 (seeds idx).2 with hname
          have hgen : genNamesFrom seeds idx (f :: rest) =
              name :: genNamesFrom seeds (idx + 1) rest := rfl
          have hnmem : name ∉ disk0 ∧ name ∉ stored := by
            refine hfresh name ?_
            rw [hgen]
            exact List.mem_cons_self _ _
          have hnd' : (stored ++ [name]).Nodup := by
            rw [List.nodup_append]
            refine ⟨hnd, List.nodup_singleton name, ?_⟩
            intro x hx hmem
            rw [List.mem_singleton] at hmem
            subst hmem
            exact hnmem.2 hx
          have hdisj' : ∀ nm ∈ stored ++ [name], nm ∉ disk0 := by
            intro nm hm
            rcases List.mem_append.mp hm with h | h
            · exact hdisj nm h
            · rw [List.mem_singleton] at h
              subst h
              exact hnmem.1
          have hfresh' : ∀ nm ∈ genNamesFrom seeds (idx + 1) rest,
              nm ∉ disk0 ∧ nm ∉ stored ++ [name] := by
            intro nm hm
            have hall := hfresh nm (by rw [hgen]; exact List.mem_cons_of_mem _ hm)
            have hnotname : nm ≠ name := by
              intro hEq
              subst hEq
              rw [hgen] at hgnd
              exact (List.nodup_cons.mp hgnd).1 hm
            refine ⟨hall.1, ?_⟩
            intro hmm
            rcases List.mem_append.mp hmm with h | h
            · exact hall.2 h
            · rw [List.mem_singleton] at h
              exact hnotname h
          have hgnd' : (genNamesFrom seeds (idx + 1) rest).Nodup := by
            rw [hgen] at hgnd
            exact (List.nodup_cons.mp hgnd).2
          have hlen' : (stored ++ [name]).length ≤ maxFiles := by
            simp
            omega
          have hbad' : maxFiles < rest.length + (stored ++ [name]).length ∨
              ∃ g ∈ rest, fileSizeLimit < g.size ∨
                jsStartsWith g.mimetype "image/" = false := by
            rcases hbad with h | ⟨g, hg, hgbad⟩
            · left
              simp at h ⊢
              omega
            · rcases List.mem_cons.mp hg with hEq | hmem
              · subst hEq
                rcases hgbad with h | h
                · exact absurd h h3
                · rw [hjs] at h
                  exact Bool.noConfusion h
              · exact Or.inr ⟨g, hmem, hgbad⟩
          have ih := runUploadAux_error seeds disk0 rest (idx + 1)
            (stored ++ [name])
            (fun g hg => hfield g (List.mem_cons_of_mem f hg))
            hnd' hdisj' hfresh' hgnd' hlen' hbad'
          rw [← List.append_assoc] at ih
          exact ih

/-- **C1.** If any file of a multipart batch fails validation — more than
five files, a file over the 5 MiB limit, or a non-image content type — the
whole request is aborted with an error and the uploads directory ends
exactly as it began: no file from the request, including files that
individually passed validation, is left in storage.  (The namer-produced
names are assumed fresh: pairwise distinct and not already present.) -/
theorem upload_batch_all_or_nothing (seeds : Nat → Nat × Nat)
    (files : List IncomingFile) (disk : List String)
    (hfield : ∀ f ∈ files, f.fieldname = uploadField)
    (hfresh : ∀ nm ∈ genNamesFrom seeds 0 files, nm ∉ disk)
    (hnodup : (genNamesFrom seeds 0 files).Nodup)
    (hbad : maxFiles < files.length ∨ ∃ f ∈ files,
      fileSizeLimit < f.size ∨ jsStartsWith f.mimetype "image/" = false) :
    ∃ e, runUpload seeds files disk = (.error e, disk) := by
  have h := runUploadAux_error seeds disk files 0 [] hfield List.nodup_nil
    (by simp) (fun nm hm => ⟨hfresh nm hm, by simp⟩) hnodup
    (by simp [maxFiles]) (by simpa using hbad)
  simpa [runUpload] using h

/-- Witness for C1: a batch whose second file is not an image aborts and
leaves the pre-existing directory untouched. -/
theorem upload_batch_all_or_nothing_witness :
    ∃ e, runUpload (fun i => (i + 1, 7))
      [⟨"images", "a.png", "image/png", 100⟩,
       ⟨"images", "b.txt", "text/plain", 50⟩] ["old.png"] =
      (.error e, ["old.png"]) :=
  upload_batch_all_or_nothing (fun i => (i + 1, 7))
    [⟨"images", "a.png", "image/png", 100⟩,
     ⟨"images", "b.txt", "text/plain", 50⟩] ["old.png"]
    (by decide) (by decide) (by decide) (by decide)

lemma runUploadAux_success (seeds : Nat → Nat × Nat) :
    ∀ (files : List IncomingFile) (idx : Nat) (disk stored : List String),
      (∀ f ∈ files, f.fieldname = uploadField ∧
        jsStartsWith f.mimetype "image/" = true ∧ f.size ≤ fileSizeLimit) →
      files.length + stored.length ≤ maxFiles →
      runUploadAux seeds files idx disk stored =
        (.ok (stored ++ genNamesFrom seeds idx files),
          disk ++ genNamesFrom seeds idx files)
  | [], idx, disk, stored, _, _ => by simp [runUploadAux, genNamesFrom]
  | f :: rest, idx, disk, stored, hgood, hlen => by
    obtain ⟨hf1, hf2, hf3⟩ := hgood f (List.mem_cons_self f rest)
    have hc1 : ¬(f.fieldname ≠ uploadField ∨ maxFiles ≤ stored.length) := by
      push_neg
      refine ⟨hf1, ?_⟩
      simp at hlen
      omega
    have hacc : fileFilter f.mimetype = .accept := by
      rw [fileFilter, if_pos hf2]
    have hc2 : ¬(fileFilter f.mimetype ≠ FilterResult.accept) :=
      not_not.mpr hacc
    have hc3 : ¬(fileSizeLimit < f.size) := Nat.not_lt.mpr hf3
    simp only [runUploadAux]
    rw [if_neg hc1, if_neg hc2, if_neg hc3]
    rw [runUploadAux_success seeds rest (idx + 1) _ _
      (fun g hg => hgood g (List.mem_cons_of_mem f hg))
      (by simp at hlen ⊢; omega)]
    simp [genNamesFrom]

lemma runRequests_success :
    ∀ (reqs : List UploadRequest) (disk : List String),
      (∀ r ∈ reqs, r.files.length ≤ maxFiles ∧ ∀ f ∈ r.files,
        f.fieldname = uploadField ∧ jsStartsWith f.mimetype "image/" = true ∧
          f.size ≤ fileSizeLimit) →
      runRequests reqs disk = .ok (allGenNames reqs, disk ++ allGenNames reqs)
  | [], disk, _ => by simp [runRequests, allGenNames]
  | r :: rest, disk, hgood => by
    obtain ⟨hlen, hfiles⟩ := hgood r (List.mem_cons_self r rest)
    have h1 := runUploadAux_success r.seeds r.files 0 disk [] hfiles
      (by simpa using hlen)
    have h2 := runRequests_success rest
      (disk ++ genNamesFrom r.seeds 0 r.files)
      (fun q hq => hgood q (List.mem_cons_of_mem r hq))
    simp only [runRequests, runUpload]
    rw [h1]
    simp only [List.nil_append]
    rw [h2]
    simp [allGenNames, List.append_assoc]

lemma genNamesFrom_length (seeds : Nat → Nat × Nat) :
    ∀ (files : List IncomingFile) (idx : Nat),
      (genNamesFrom seeds idx files).length = files.length
  | [], _ => rfl
  | _ :: rest, idx => by
    simp only [genNamesFrom, List.length_cons]
    rw [genNamesFrom_length seeds rest (idx + 1)]

lemma allGenNames_length :
    ∀ reqs : List UploadRequest,
      (allGenNames reqs).length = (reqs.map (fun r => r.files.length)).sum
  | [] => rfl
  | r :: rest => by
    simp only [allGenNames, List.map_cons, List.flatten_cons,
      List.length_append, List.sum_cons]
    rw [genNamesFrom_length]
    have h := allGenNames_length rest
    simp only [allGenNames] at h
    rw [h]

lemma mem_genNamesFrom (seeds : Nat → Nat × Nat) :
    ∀ (files : List IncomingFile) (idx : Nat) (nm : String),
      nm ∈ genNamesFrom seeds idx files →
      ∃ f ∈ files, ∃ i : Nat, nm = storageFilename f.fieldname f.originalname
        (seeds i).1 (seeds i).2
  | [], _, nm, h => by simp [genNamesFrom] at h
  | f :: rest, idx, nm, h => by
    rcases List.mem_cons.mp h with hEq | hmem
    · exact ⟨f, List.mem_cons_self f rest, idx, hEq⟩
    · obtain ⟨g, hg, i, hi⟩ := mem_genNamesFrom seeds rest (idx + 1) nm hmem
      exact ⟨g, List.mem_cons_of_mem f hg, i, hi⟩

lemma isImageFilename_of_allowed (fieldname originalname : String)
    (now rand : Nat)
    (h : jsToLower (extname originalname) ∈ allowedExtensions) :
    isImageFilename (storageFilename fieldname originalname now rand) = true := by
  have hsfx : (jsToLower (extname originalname)).data <:+
      (jsToLower (storageFilename fieldname originalname now rand)).data := by
    have hdata :
        (jsToLower (storageFilename fieldname originalname now rand)).data =
          ((fieldname ++ "-" ++
            (jsNatToString now ++ "-" ++ jsNatToString rand)).data.map
              Char.toLower) ++ (jsToLower (extname originalname)).data := by
      simp [jsToLower, storageFilename, String.data_append, List.map_append]
    rw [hdata]
    exact List.suffix_append _ _
  have hends : ∀ y : String, jsToLower (extname originalname) = y →
      jsEndsWith (jsToLower (storageFilename fieldname originalname now rand))
        y = true := by
    intro y hy
    rw [jsEndsWith, List.isSuffixOf_iff_suffix, ← hy]
    exact hsfx
  simp only [allowedExtensions, List.mem_cons, List.mem_singleton,
    List.not_mem_nil, or_false] at h
  rcases h with h | h | h | h | h | h <;>
    simp [isImageFilename, hends _ h]

/-- **C4, counterexample.** A file with content type `image/bmp` passes the
upload filter, so the upload request succeeds and stores one file — but the
generated name does not match the list route's extension allowlist, so a
subsequent listing returns zero entries rather than one. -/
theorem upload_accepted_but_unlisted :
    runUpload (fun i => (i + 1, 7))
      [⟨"images", "pic.bmp", "image/bmp", 100⟩] [] =
      (.ok ["images-1-7.bmp"], ["images-1-7.bmp"]) ∧
    listMedia "" ["images-1-7.bmp"] = [] ∧
    isImageFilename (storageFilename "images" "pic.bmp" 1 7) = false :=
  ⟨by rfl, by decide, by decide⟩

/-- **C4 (amended).** Starting from an empty storage directory, a sequence
of upload requests each holding at most five image-typed files within the
size limit — *whose original names carry an allowlisted image extension* —
all succeed, every generated name (assumed fresh) is stored, and a
subsequent listing returns exactly those names, one entry per uploaded
file, in order; listing an empty directory returns the empty collection. -/
theorem uploads_then_list_roundtrip (reqs : List UploadRequest) (env : String)
    (hgood : ∀ r ∈ reqs, r.files.length ≤ maxFiles ∧ ∀ f ∈ r.files,
      f.fieldname = uploadField ∧ jsStartsWith f.mimetype "image/" = true ∧
        f.size ≤ fileSizeLimit ∧
        jsToLower (extname f.originalname) ∈ allowedExtensions)
    (hfresh : (allGenNames reqs).Nodup) :
    listMedia env [] = [] ∧
    runRequests reqs [] = .ok (allGenNames reqs, allGenNames reqs) ∧
    (listMedia env (allGenNames reqs)).map MediaEntry.filename =
      allGenNames reqs ∧
    (allGenNames reqs).length = (reqs.map (fun r => r.files.length)).sum := by
  have hall : ∀ nm ∈ allGenNames reqs, isImageFilename nm = true := by
    intro nm hm
    simp only [allGenNames, List.mem_flatten, List.mem_map] at hm
    obtain ⟨l, ⟨r, hr, rfl⟩, hml⟩ := hm
    obtain ⟨f, hf, i, rfl⟩ := mem_genNamesFrom r.seeds r.files 0 nm hml
    exact isImageFilename_of_allowed f.fieldname f.originalname _ _
      ((hgood r hr).2 f hf).2.2.2
  refine ⟨rfl, ?_, ?_, ?_⟩
  · have h := runRequests_success reqs []
      (fun r hr => ⟨(hgood r hr).1, fun f hf =>
        ⟨((hgood r hr).2 f hf).1, ((hgood r hr).2 f hf).2.1,
          ((hgood r hr).2 f hf).2.2.1⟩⟩)
    simpa using h
  · simp only [listMedia, List.filter_eq_self.mpr hall, List.map_map]
    show List.map (fun nm => nm) (allGenNames reqs) = allGenNames reqs
    exact List.map_id _
  · exact allGenNames_length reqs

/-- Witness for amended C4: two one-file requests, listed back exactly. -/
theorem uploads_then_list_roundtrip_witness :
    runRequests witnessReqs [] =
      .ok (allGenNames witnessReqs, allGenNames witnessReqs) ∧
    (listMedia "http://h" (allGenNames witnessReqs)).map MediaEntry.filename =
      allGenNames witnessReqs :=
  ⟨(uploads_then_list_roundtrip witnessReqs "http://h"
      (by decide) (by decide)).2.1,
   (uploads_then_list_roundtrip witnessReqs "http://h"
      (by decide) (by decide)).2.2.1⟩

end We3Vision
